import Mathlib

/-!
Shallow embedding of the box geometry and overlap-resolution routines of
`boxfunc1.c` (leptonica box functions as vendored in this repository).

A `BOX` is four `l_int32` fields `(x, y, w, h)`; we model it as four `Int`
fields (the routines under study perform no arithmetic anywhere near the
32-bit boundary for the inputs the claims quantify over, so wrap-around is
not modelled).  A `BOXA` is an ordered sequence of boxes, modelled as
`List Box`.  The `NUMA` index map of `boxaHandleOverlaps` is modelled as a
`List Int` with sentinel `-1`.  The `l_float32` threshold comparisons of
`boxaHandleOverlaps` are modelled exactly over `ℚ`.
-/

namespace Boxfunc

/-- A box: origin `(x, y)`, width `w`, height `h`, as in the C `BOX` struct. -/
structure Box where
  x : Int
  y : Int
  w : Int
  h : Int
deriving DecidableEq, Repr

/-- Pixel area of a box, `w * h`, as computed inline by `boxaHandleOverlaps`. -/
def area (b : Box) : Int := b.w * b.h

/-- Translation of `boxContains`: 1 iff box2 is entirely contained in box1,
by inclusive comparison of the four sides. -/
def boxContains (p q : Box) : Bool :=
  decide (p.x ≤ q.x ∧ p.y ≤ q.y ∧ q.x + q.w ≤ p.x + p.w ∧ q.y + q.h ≤ p.y + p.h)

/-- Translation of `boxIntersects`: with `r = l + w - 1` and `b = t + h - 1`,
the result is 0 exactly when one box lies strictly past the other's last
pixel row or column, and 1 otherwise. -/
def boxIntersects (p q : Box) : Bool :=
  decide (¬(q.y + q.h - 1 < p.y ∨ p.y + p.h - 1 < q.y ∨
            p.x + p.w - 1 < q.x ∨ q.x + q.w - 1 < p.x))

/-- Translation of `boxOverlapRegion`: `NULL` (here `none`) when the
`boxIntersects` test fails, else the rectangle spanned by the max of the
low corners and the min of the high corners, inclusive. -/
def boxOverlapRegion (p q : Box) : Option Box :=
  if q.y + q.h - 1 < p.y ∨ p.y + p.h - 1 < q.y ∨
     p.x + p.w - 1 < q.x ∨ q.x + q.w - 1 < p.x then none
  else some ⟨max p.x q.x, max p.y q.y,
             min (p.x + p.w - 1) (q.x + q.w - 1) - max p.x q.x + 1,
             min (p.y + p.h - 1) (q.y + q.h - 1) - max p.y q.y + 1⟩

/-- Translation of `boxBoundingRegion`: min of lows, max of highs, inclusive. -/
def boxBoundingRegion (p q : Box) : Box :=
  ⟨min p.x q.x, min p.y q.y,
   max (p.x + p.w - 1) (q.x + q.w - 1) - min p.x q.x + 1,
   max (p.y + p.h - 1) (q.y + q.h - 1) - min p.y q.y + 1⟩

/-- Translation of `boxOverlapArea`: 0 when `boxOverlapRegion` is `NULL`,
else the `w * h` of the overlap region. -/
def boxOverlapArea (p q : Box) : Int :=
  match boxOverlapRegion p q with
  | none => 0
  | some r => r.w * r.h

/-- Translation of `boxSetGeometry` (from the collaborating box container):
each field is overwritten unless the argument is the keep-sentinel `-1`. -/
def boxSetGeometry (b : Box) (x y w h : Int) : Box :=
  ⟨if x ≠ -1 then x else b.x, if y ≠ -1 then y else b.y,
   if w ≠ -1 then w else b.w, if h ≠ -1 then h else b.h⟩

/-- The four side selectors `L_FROM_LEFT`, `L_FROM_RIGHT`, `L_FROM_TOP`,
`L_FROM_BOT` of `boxRelocateOneSide`. -/
inductive SideFlag where
  | fromLeft
  | fromRight
  | fromTop
  | fromBot
deriving DecidableEq

/-- Translation of `boxRelocateOneSide` (with `boxd = NULL`, i.e. acting on a
copy of `boxs`): moves one edge to `loc`, recomputing the adjacent extent via
`boxSetGeometry`.  Note the C code performs no check on the resulting width
or height and returns the box unconditionally. -/
def boxRelocateOneSide (b : Box) (loc : Int) (s : SideFlag) : Box :=
  match s with
  | .fromLeft => boxSetGeometry b loc (-1) (b.w + b.x - loc) (-1)
  | .fromRight => boxSetGeometry b (-1) (-1) (loc - b.x + 1) (-1)
  | .fromTop => boxSetGeometry b (-1) loc (-1) (b.h + b.y - loc)
  | .fromBot => boxSetGeometry b (-1) (-1) (-1) (loc - b.y + 1)

/-- The zero-area placeholder `boxCreate(0, 0, 0, 0)` used by
`boxaSplitEvenOdd` in fill mode. -/
def invalidBox : Box := ⟨0, 0, 0, 0⟩

/-- Translation of `boxaSplitEvenOdd`: partitions by index parity.  With
`fillflag = false` each half keeps only its own parity; with
`fillflag = true` the other parity's slots are filled with `invalidBox`. -/
def boxaSplitEvenOdd : List Box → Bool → List Box × List Box
  | [], _ => ([], [])
  | b :: rest, fillflag =>
    let p := boxaSplitEvenOdd rest fillflag
    if fillflag then (b :: p.2, invalidBox :: p.1) else (b :: p.2, p.1)

/-- The unfilled merge loop of `boxaMergeEvenOdd`: element `i` of the result
is `e[i/2]` for even `i` and `o[i/2]` for odd `i`, i.e. a plain interleave. -/
def interleave : List Box → List Box → List Box
  | [], ys => ys
  | x :: xs, ys => x :: interleave ys xs
termination_by xs ys => xs.length + ys.length
decreasing_by simp; omega

/-- The filled merge loop of `boxaMergeEvenOdd`: element `i` of the result is
`e[i]` for even `i` and `o[i]` for odd `i` (an out-of-range fetch, possible
only when the inputs have unequal lengths, adds nothing, matching the
container's `boxaAddBox(NULL)` error path). -/
def mergeFilled : List Box → List Box → List Box
  | [], _ => []
  | x :: xs, ys => x :: mergeFilled ys.tail xs
termination_by xs ys => xs.length + ys.length
decreasing_by simp [List.length_tail]; omega

/-- Translation of `boxaMergeEvenOdd`: hard error (`none`) unless
`ne = no` or `ne = no + 1`, else interleave by parity. -/
def boxaMergeEvenOdd (e o : List Box) (fillflag : Bool) : Option (List Box) :=
  if e.length < o.length ∨ o.length + 1 < e.length then none
  else if fillflag then some (mergeFilled e o) else some (interleave e o)

/-- Modelled from the spec: the closed integer range `[lo1, hi1]` and the
closed integer range `[lo2, hi2]` share at least one point.  This is the
spec's notion of "the closed pixel ranges overlap", used to compare
against `boxIntersects`. -/
def closedRangesOverlap (lo1 hi1 lo2 hi2 : Int) : Prop :=
  ∃ z : Int, lo1 ≤ z ∧ z ≤ hi1 ∧ lo2 ≤ z ∧ z ≤ hi2

theorem boxOverlapRegion_comm (p q : Box) :
    boxOverlapRegion p q = boxOverlapRegion q p := by
  unfold boxOverlapRegion
  by_cases h : q.y + q.h - 1 < p.y ∨ p.y + p.h - 1 < q.y ∨
      p.x + p.w - 1 < q.x ∨ q.x + q.w - 1 < p.x
  · rw [if_pos h, if_pos (by omega)]
  · rw [if_neg h, if_neg (by omega)]
    simp [max_comm, min_comm]

theorem boxOverlapArea_comm (p q : Box) :
    boxOverlapArea p q = boxOverlapArea q p := by
  unfold boxOverlapArea
  rw [boxOverlapRegion_comm]

theorem boxIntersects_comm (p q : Box) :
    boxIntersects p q = boxIntersects q p := by
  unfold boxIntersects
  rw [decide_eq_decide]
  omega

theorem boxaSplitEvenOdd_false_lengths (l : List Box) :
    (boxaSplitEvenOdd l false).2.length ≤ (boxaSplitEvenOdd l false).1.length ∧
      (boxaSplitEvenOdd l false).1.length ≤ (boxaSplitEvenOdd l false).2.length + 1 := by
  induction l with
  | nil => simp [boxaSplitEvenOdd]
  | cons b rest ih =>
    obtain ⟨h1, h2⟩ := ih
    simp only [boxaSplitEvenOdd, Bool.false_eq_true, if_false, List.length_cons]
    omega

theorem boxaSplitEvenOdd_true_lengths (l : List Box) :
    (boxaSplitEvenOdd l true).1.length = l.length ∧
      (boxaSplitEvenOdd l true).2.length = l.length := by
  induction l with
  | nil => simp [boxaSplitEvenOdd]
  | cons b rest ih =>
    obtain ⟨h1, h2⟩ := ih
    simp only [boxaSplitEvenOdd, if_true, List.length_cons]
    omega

theorem interleave_boxaSplitEvenOdd (l : List Box) :
    interleave (boxaSplitEvenOdd l false).1 (boxaSplitEvenOdd l false).2 = l := by
  induction l with
  | nil => simp [boxaSplitEvenOdd, interleave]
  | cons b rest ih =>
    simp only [boxaSplitEvenOdd, Bool.false_eq_true, if_false, interleave]
    rw [ih]

theorem mergeFilled_boxaSplitEvenOdd (l : List Box) :
    mergeFilled (boxaSplitEvenOdd l true).1 (boxaSplitEvenOdd l true).2 = l := by
  induction l with
  | nil => simp [boxaSplitEvenOdd, mergeFilled]
  | cons b rest ih =>
    simp only [boxaSplitEvenOdd, if_true, mergeFilled, List.tail_cons]
    rw [ih]

/-- C9: for every collection and both values of the fill flag, splitting into
even and odd halves and merging them back with the same flag reproduces the
collection exactly, element for element. -/
theorem claim_C9_split_merge_even_odd (l : List Box) (fillflag : Bool) :
    boxaMergeEvenOdd (boxaSplitEvenOdd l fillflag).1 (boxaSplitEvenOdd l fillflag).2
      fillflag = some l := by
  cases fillflag with
  | false =>
    obtain ⟨h1, h2⟩ := boxaSplitEvenOdd_false_lengths l
    rw [boxaMergeEvenOdd, if_neg (by omega)]
    simp [interleave_boxaSplitEvenOdd]
  | true =>
    obtain ⟨h1, h2⟩ := boxaSplitEvenOdd_true_lengths l
    rw [boxaMergeEvenOdd, if_neg (by omega)]
    simp [mergeFilled_boxaSplitEvenOdd]

/-- C8: the claim says `relocate_one_side` fails (returns none) whenever the
recomputed box would have non-positive width or height; the code performs no
such check.  Relocating the left side of the box `(0,0,5,5)` to 10 returns
the box `(10,0,-5,5)` with width `-5` instead of failing, contradicting the
function's own doc comment ("or NULL ... if the computed boxd has width or
height <= 0"). -/
theorem claim_C8_relocate_no_dimension_check :
    boxRelocateOneSide ⟨0, 0, 5, 5⟩ 10 SideFlag.fromLeft = ⟨10, 0, -5, 5⟩ := by
  decide

/-- C4 (amended): for boxes whose widths and heights are all at least 1,
`boxIntersects` is true iff the closed pixel ranges overlap on both axes.
(The unrestricted claim is false: a box with `w == 0` or `h == 0` is not
treated as empty by the predicate, see the counterexample.) -/
theorem claim_C4_intersects_iff_ranges_overlap (p q : Box)
    (hpw : 1 ≤ p.w) (hph : 1 ≤ p.h) (hqw : 1 ≤ q.w) (hqh : 1 ≤ q.h) :
    boxIntersects p q = true ↔
      (closedRangesOverlap p.x (p.x + p.w - 1) q.x (q.x + q.w - 1) ∧
       closedRangesOverlap p.y (p.y + p.h - 1) q.y (q.y + q.h - 1)) := by
  unfold boxIntersects closedRangesOverlap
  rw [decide_eq_true_eq]
  constructor
  · intro h
    exact ⟨⟨max p.x q.x, by omega⟩, ⟨max p.y q.y, by omega⟩⟩
  · rintro ⟨⟨z, hz⟩, ⟨v, hv⟩⟩
    omega

/-- Witness for C4 (amended) at the boxes `(0,0,2,2)` and `(1,1,2,2)`. -/
theorem claim_C4_witness :
    ((1 : Int) ≤ (Box.mk 0 0 2 2).w ∧ (1 : Int) ≤ (Box.mk 0 0 2 2).h ∧
     (1 : Int) ≤ (Box.mk 1 1 2 2).w ∧ (1 : Int) ≤ (Box.mk 1 1 2 2).h) ∧
    (boxIntersects (Box.mk 0 0 2 2) (Box.mk 1 1 2 2) = true ↔
      (closedRangesOverlap (Box.mk 0 0 2 2).x
          ((Box.mk 0 0 2 2).x + (Box.mk 0 0 2 2).w - 1)
          (Box.mk 1 1 2 2).x ((Box.mk 1 1 2 2).x + (Box.mk 1 1 2 2).w - 1) ∧
       closedRangesOverlap (Box.mk 0 0 2 2).y
          ((Box.mk 0 0 2 2).y + (Box.mk 0 0 2 2).h - 1)
          (Box.mk 1 1 2 2).y ((Box.mk 1 1 2 2).y + (Box.mk 1 1 2 2).h - 1))) :=
  ⟨⟨by decide, by decide, by decide, by decide⟩,
   claim_C4_intersects_iff_ranges_overlap (Box.mk 0 0 2 2) (Box.mk 1 1 2 2)
     (by decide) (by decide) (by decide) (by decide)⟩

/-- C4 counterexample: the zero-size box `(5,5,0,0)` has an empty closed
pixel range on the x axis, yet `boxIntersects` reports it as intersecting
`(0,0,10,10)` — refuting both "intersects iff the closed ranges overlap"
and "a box with `w == 0` or `h == 0` intersects no box". -/
theorem claim_C4_counterexample :
    boxIntersects ⟨0, 0, 10, 10⟩ ⟨5, 5, 0, 0⟩ = true ∧
      ¬ closedRangesOverlap 0 (0 + 10 - 1) 5 (5 + 0 - 1) := by
  refine ⟨by decide, ?_⟩
  rintro ⟨z, h1, h2, h3, h4⟩
  omega

/-- C5: whenever `boxOverlapRegion` returns a box, that box is contained in
both inputs (in the sense of `boxContains`), and `boxOverlapArea` equals the
width-times-height area of the returned region. -/
theorem claim_C5_overlap_region_contained (p q r : Box)
    (h : boxOverlapRegion p q = some r) :
    boxContains p r = true ∧ boxContains q r = true ∧
      boxOverlapArea p q = area r := by
  unfold boxOverlapRegion at h
  split_ifs at h with hc
  simp only [Option.some.injEq] at h
  subst h
  refine ⟨?_, ?_, ?_⟩
  · unfold boxContains
    rw [decide_eq_true_eq]
    refine ⟨?_, ?_, ?_, ?_⟩ <;> simp <;> omega
  · unfold boxContains
    rw [decide_eq_true_eq]
    refine ⟨?_, ?_, ?_, ?_⟩ <;> simp <;> omega
  · unfold boxOverlapArea boxOverlapRegion area
    rw [if_neg hc]

/-- Witness for C5 at the overlapping boxes `(0,0,4,4)` and `(2,2,4,4)`. -/
theorem claim_C5_witness :
    boxOverlapRegion (Box.mk 0 0 4 4) (Box.mk 2 2 4 4) = some (Box.mk 2 2 2 2) ∧
    (boxContains (Box.mk 0 0 4 4) (Box.mk 2 2 2 2) = true ∧
     boxContains (Box.mk 2 2 4 4) (Box.mk 2 2 2 2) = true ∧
     boxOverlapArea (Box.mk 0 0 4 4) (Box.mk 2 2 4 4) = area (Box.mk 2 2 2 2)) :=
  ⟨by decide,
   claim_C5_overlap_region_contained (Box.mk 0 0 4 4) (Box.mk 2 2 4 4)
     (Box.mk 2 2 2 2) (by decide)⟩

/-- C6: for input boxes with non-negative width and height, any box produced
by `boxOverlapRegion` or `boxBoundingRegion` has non-negative width and
height; a non-overlap yields `none` (by definition of `boxOverlapRegion`)
rather than a box with a negative dimension. -/
theorem claim_C6_derived_regions_nonneg (p q : Box)
    (hpw : 0 ≤ p.w) (hph : 0 ≤ p.h) (hqw : 0 ≤ q.w) (hqh : 0 ≤ q.h) :
    (∀ r, boxOverlapRegion p q = some r → 0 ≤ r.w ∧ 0 ≤ r.h) ∧
      0 ≤ (boxBoundingRegion p q).w ∧ 0 ≤ (boxBoundingRegion p q).h := by
  refine ⟨?_, ?_, ?_⟩
  · intro r h
    unfold boxOverlapRegion at h
    split_ifs at h with hc
    simp only [Option.some.injEq] at h
    subst h
    constructor <;> simp <;> omega
  · unfold boxBoundingRegion
    simp
    omega
  · unfold boxBoundingRegion
    simp
    omega

/-- Witness for C6 at the boxes `(0,0,2,2)` and `(5,5,3,3)`. -/
theorem claim_C6_witness :
    ((0 : Int) ≤ (Box.mk 0 0 2 2).w ∧ (0 : Int) ≤ (Box.mk 0 0 2 2).h ∧
     (0 : Int) ≤ (Box.mk 5 5 3 3).w ∧ (0 : Int) ≤ (Box.mk 5 5 3 3).h) ∧
    ((∀ r, boxOverlapRegion (Box.mk 0 0 2 2) (Box.mk 5 5 3 3) = some r →
        0 ≤ r.w ∧ 0 ≤ r.h) ∧
      0 ≤ (boxBoundingRegion (Box.mk 0 0 2 2) (Box.mk 5 5 3 3)).w ∧
      0 ≤ (boxBoundingRegion (Box.mk 0 0 2 2) (Box.mk 5 5 3 3)).h) :=
  ⟨⟨by decide, by decide, by decide, by decide⟩,
   claim_C6_derived_regions_nonneg (Box.mk 0 0 2 2) (Box.mk 5 5 3 3)
     (by decide) (by decide) (by decide) (by decide)⟩

/-- The inner `j` loop of one `boxaCombineOverlaps` pass: test `b` against
the boxes already placed in the output; on the first intersection, replace
the matched output box by `boxBoundingRegion b matched` and discard `b`;
if no intersection is found, append `b`.  (The `i == 0` unconditional add of
the C code coincides with the empty-output case.) -/
def addToOutput (b : Box) : List Box → List Box
  | [] => [b]
  | c :: rest =>
    if boxIntersects b c then boxBoundingRegion b c :: rest
    else c :: addToOutput b rest

/-- One full pass of `boxaCombineOverlaps`: scan the working collection left
to right, folding each box into the freshly built output via `addToOutput`. -/
def combinePass (l : List Box) : List Box :=
  l.foldl (fun out b => addToOutput b out) []

theorem addToOutput_length_or_append (b : Box) (out : List Box) :
    (addToOutput b out).length = out.length ∨ addToOutput b out = out ++ [b] := by
  induction out with
  | nil => right; rfl
  | cons c rest ih =>
    by_cases h : boxIntersects b c
    · left; simp [addToOutput, h]
    · rcases ih with h1 | h1
      · left; simp [addToOutput, h, h1]
      · right; simp [addToOutput, h, h1]

theorem addToOutput_length_le (b : Box) (out : List Box) :
    (addToOutput b out).length ≤ out.length + 1 := by
  rcases addToOutput_length_or_append b out with h | h
  · omega
  · rw [h]; simp

theorem combinePass_foldl_length_le (l : List Box) :
    ∀ acc : List Box,
      (l.foldl (fun out b => addToOutput b out) acc).length ≤ acc.length + l.length := by
  induction l with
  | nil => simp
  | cons b rest ih =>
    intro acc
    simp only [List.foldl_cons, List.length_cons]
    have h1 := ih (addToOutput b acc)
    have h2 := addToOutput_length_le b acc
    omega

theorem combinePass_length_le (l : List Box) : (combinePass l).length ≤ l.length := by
  simpa [combinePass] using combinePass_foldl_length_le l []

theorem combinePass_foldl_eq_append (l : List Box) :
    ∀ acc : List Box,
      (l.foldl (fun out b => addToOutput b out) acc).length = acc.length + l.length →
      l.foldl (fun out b => addToOutput b out) acc = acc ++ l := by
  induction l with
  | nil => simp
  | cons b rest ih =>
    intro acc h
    simp only [List.foldl_cons, List.length_cons] at h
    have hadd : addToOutput b acc = acc ++ [b] := by
      rcases addToOutput_length_or_append b acc with h1 | h1
      · exfalso
        have := combinePass_foldl_length_le rest (addToOutput b acc)
        omega
      · exact h1
    rw [List.foldl_cons, hadd,
      ih (acc ++ [b]) (by rw [hadd] at h; simp at h ⊢; omega)]
    simp

theorem combinePass_eq_self (l : List Box) (h : (combinePass l).length = l.length) :
    combinePass l = l := by
  have := combinePass_foldl_eq_append l [] (by simpa [combinePass] using h)
  simpa [combinePass] using this

/-- The fixed-point loop of `boxaCombineOverlaps`: run passes until the pass
leaves the collection size unchanged, then return that pass's output.
The recursion is well founded because a size-changing pass strictly shrinks
the collection (`combinePass_length_le`). -/
def boxaCombineOverlaps (l : List Box) : List Box :=
  if (combinePass l).length = l.length then combinePass l
  else boxaCombineOverlaps (combinePass l)
termination_by l.length
decreasing_by
  rename_i h
  exact Nat.lt_of_le_of_ne (combinePass_length_le l) h

theorem boxaCombineOverlaps_eq (l : List Box) :
    boxaCombineOverlaps l =
      if (combinePass l).length = l.length then combinePass l
      else boxaCombineOverlaps (combinePass l) := by
  rw [boxaCombineOverlaps]

/-- The same loop with an explicit pass budget, to state termination: `none`
means the budget ran out before the loop converged. -/
def boxaCombineOverlapsFuel : Nat → List Box → Option (List Box)
  | 0, _ => none
  | fuel + 1, l =>
    if (combinePass l).length = l.length then some (combinePass l)
    else boxaCombineOverlapsFuel fuel (combinePass l)

theorem boxaCombineOverlapsFuel_succ (fuel : Nat) (l : List Box) :
    boxaCombineOverlapsFuel (fuel + 1) l =
      if (combinePass l).length = l.length then some (combinePass l)
      else boxaCombineOverlapsFuel fuel (combinePass l) := rfl

theorem boxaCombineOverlapsFuel_spec :
    ∀ n : Nat, ∀ l : List Box, l.length ≤ n →
      boxaCombineOverlapsFuel (n + 1) l = some (boxaCombineOverlaps l) := by
  intro n
  induction n with
  | zero =>
    intro l hl
    have hnil : l = [] := List.eq_nil_of_length_eq_zero (Nat.le_zero.mp hl)
    subst hnil
    rw [boxaCombineOverlapsFuel_succ, boxaCombineOverlaps_eq]
    simp [combinePass]
  | succ n ih =>
    intro l hl
    rw [boxaCombineOverlapsFuel_succ, boxaCombineOverlaps_eq]
    by_cases h : (combinePass l).length = l.length
    · rw [if_pos h, if_pos h]
    · rw [if_neg h, if_neg h]
      have hlt : (combinePass l).length < l.length :=
        Nat.lt_of_le_of_ne (combinePass_length_le l) h
      exact ih (combinePass l) (by omega)

/-- C1: `boxaCombineOverlaps` terminates — each pass's output is never larger
than its working collection, and running the loop with a budget of
`length + 1` passes already reaches the converged fixed point (a pass whose
output size equals the working size ends the loop). -/
theorem claim_C1_combine_overlaps_terminates (l : List Box) :
    (combinePass l).length ≤ l.length ∧
      boxaCombineOverlapsFuel (l.length + 1) l = some (boxaCombineOverlaps l) :=
  ⟨combinePass_length_le l, boxaCombineOverlapsFuel_spec l.length l le_rfl⟩

theorem combinePass_boxaCombineOverlaps (l : List Box) :
    combinePass (boxaCombineOverlaps l) = boxaCombineOverlaps l := by
  rw [boxaCombineOverlaps_eq]
  split_ifs with h
  · have e := combinePass_eq_self l h
    rw [e]
    exact e
  · exact combinePass_boxaCombineOverlaps (combinePass l)
termination_by l.length
decreasing_by
  exact Nat.lt_of_le_of_ne (combinePass_length_le l) h

/-- C2: running `boxaCombineOverlaps` twice yields the same collection as
running it once — the second run is a no-op fixed point. -/
theorem claim_C2_combine_overlaps_idempotent (l : List Box) :
    boxaCombineOverlaps (boxaCombineOverlaps l) = boxaCombineOverlaps l := by
  have h := combinePass_boxaCombineOverlaps l
  rw [boxaCombineOverlaps_eq (boxaCombineOverlaps l), h]
  simp

theorem addToOutput_append_no_intersect (b : Box) (out : List Box)
    (h : addToOutput b out = out ++ [b]) :
    ∀ c ∈ out, boxIntersects b c = false := by
  induction out with
  | nil => simp
  | cons c rest ih =>
    by_cases hbc : boxIntersects b c
    · exfalso
      rw [addToOutput, if_pos hbc] at h
      have := congrArg List.length h
      simp at this
    · rw [addToOutput, if_neg hbc, List.cons_append, List.cons.injEq] at h
      intro d hd
      rcases List.mem_cons.mp hd with rfl | hd2
      · exact Bool.of_not_eq_true hbc
      · exact ih h.2 d hd2

theorem combinePass_foldl_pairwise (l : List Box) :
    ∀ acc : List Box,
      l.foldl (fun out b => addToOutput b out) acc = acc ++ l →
      (∀ b ∈ l, ∀ a ∈ acc, boxIntersects b a = false) ∧
        l.Pairwise (fun a b => boxIntersects b a = false) := by
  induction l with
  | nil => simp
  | cons b rest ih =>
    intro acc h
    simp only [List.foldl_cons] at h
    have hadd : addToOutput b acc = acc ++ [b] := by
      rcases addToOutput_length_or_append b acc with h1 | h1
      · exfalso
        have hle := combinePass_foldl_length_le rest (addToOutput b acc)
        have := congrArg List.length h
        simp at this
        omega
      · exact h1
    rw [hadd] at h
    have h2 : rest.foldl (fun out b => addToOutput b out) (acc ++ [b])
        = (acc ++ [b]) ++ rest := by
      rw [h]; simp
    obtain ⟨hmem, hpair⟩ := ih (acc ++ [b]) h2
    have hb := addToOutput_append_no_intersect b acc hadd
    constructor
    · intro c hc a ha
      rcases List.mem_cons.mp hc with rfl | hc2
      · exact hb a ha
      · exact hmem c hc2 a (by simp [ha])
    · refine List.pairwise_cons.mpr ⟨?_, hpair⟩
      intro c hc
      exact hmem c hc b (by simp)

/-- C10: the output of `boxaCombineOverlaps` is pairwise non-intersecting —
for any two distinct positions of the returned collection, `boxIntersects`
is false in both argument orders. -/
theorem claim_C10_combine_overlaps_disjoint (l : List Box) :
    (boxaCombineOverlaps l).Pairwise
      (fun a b => boxIntersects a b = false ∧ boxIntersects b a = false) := by
  have hfix := combinePass_boxaCombineOverlaps l
  have h : (boxaCombineOverlaps l).foldl (fun out b => addToOutput b out) []
      = [] ++ boxaCombineOverlaps l := by
    simpa [combinePass] using hfix
  obtain ⟨-, hpair⟩ := combinePass_foldl_pairwise (boxaCombineOverlaps l) [] h
  exact hpair.imp fun hab => ⟨(boxIntersects_comm _ _).trans hab, hab⟩

/-- The two operating modes `L_COMBINE` and `L_REMOVE_SMALL` of
`boxaHandleOverlaps`. -/
inductive OverlapOp where
  | combine
  | removeSmall
deriving DecidableEq

/-- The pair visit order of the marking loops of `boxaHandleOverlaps`:
for each `i < n`, the indices `j` with `i + 1 ≤ j < i + 1 + range` and
`j < n`, in increasing order of `i` and then `j`. -/
def windowPairs (n range : Nat) : List (Nat × Nat) :=
  (List.range n).flatMap fun i =>
    (List.range' (i + 1) (min range (n - (i + 1)))).map fun j => (i, j)

/-- The body of the marking loops of `boxaHandleOverlaps` for one pair
`(i, j)`: `some (p, v)` when the pair qualifies and the index map entry at
position `p` (the smaller box) is set to `v` (the larger box), `none` when
nothing is written.  The `l_float32` ratio comparisons of the C code are
modelled exactly over `ℚ`. -/
def pairWrite (boxes : List Box) (minOv maxR : ℚ) (i j : Nat) : Option (Nat × Nat) :=
  match boxes.get? i, boxes.get? j with
  | some b1, some b2 =>
    if area b1 = 0 then none
    else if 0 < boxOverlapArea b1 b2 then
      if area b2 = 0 then none
      else if area b2 ≤ area b1 then
        if minOv ≤ (boxOverlapArea b1 b2 : ℚ) / (area b2 : ℚ) ∧
            (area b2 : ℚ) / (area b1 : ℚ) ≤ maxR
        then some (j, i) else none
      else
        if minOv ≤ (boxOverlapArea b1 b2 : ℚ) / (area b1 : ℚ) ∧
            (area b1 : ℚ) / (area b2 : ℚ) ≤ maxR
        then some (i, j) else none
    else none
  | _, _ => none

/-- The sequence of index-map writes performed by the marking phase of
`boxaHandleOverlaps`, in execution order: each element is a pair
`(position, stored index)`. -/
def markWrites (boxes : List Box) (range : Nat) (minOv maxR : ℚ) :
    List (Nat × Nat) :=
  (windowPairs boxes.length range).filterMap fun p =>
    pairWrite boxes minOv maxR p.1 p.2

/-- The index map (`namap`) produced by the marking phase: a length-`n` list
initialised to the sentinel `-1`, with the writes of `markWrites` applied in
order (a later write to the same position overwrites an earlier one). -/
def markMap (boxes : List Box) (range : Nat) (minOv maxR : ℚ) : List Int :=
  (markWrites boxes range minOv maxR).foldl
    (fun m pv => m.set pv.1 (pv.2 : Int)) (List.replicate boxes.length (-1))

/-- One step of the COMBINE-mode replacement loop of `boxaHandleOverlaps`:
if the map entry at `i` is set to `val ≥ 0`, replace position `val` of the
working copy by the bounding region of the original boxes at `i` (smaller)
and `val` (larger). -/
def combineStep (boxes : List Box) (namap : List Int) (bt : List Box) (i : Nat) :
    List Box :=
  match namap.get? i with
  | some v =>
    if 0 ≤ v then
      match boxes.get? i, boxes.get? v.toNat with
      | some b1, some b2 => bt.set v.toNat (boxBoundingRegion b1 b2)
      | _, _ => bt
    else bt
  | none => bt

/-- The COMBINE-mode replacement loop of `boxaHandleOverlaps`, run over a
copy of the input. -/
def combineReplace (boxes : List Box) (namap : List Int) : List Box :=
  (List.range boxes.length).foldl (combineStep boxes namap) boxes

/-- The final filter of `boxaHandleOverlaps`: keep, in original order,
exactly the positions whose index-map entry is still the sentinel `-1`. -/
def keepUnmapped (namap : List Int) (boxat : List Box) (n : Nat) : List Box :=
  (List.range n).filterMap fun i =>
    match namap.get? i with
    | some v => if v = -1 then boxat.get? i else none
    | none => none

/-- Translation of `boxaHandleOverlaps`: mark (via `markMap`), in COMBINE
mode replace the larger box of each recorded pair by the pair's bounding
region, then drop every position marked as a smaller box.  `range = 0`
returns an unmodified copy with a warning. -/
def boxaHandleOverlaps (boxes : List Box) (op : OverlapOp) (range : Nat)
    (minOv maxR : ℚ) : List Box :=
  if boxes.length = 0 then []
  else if range = 0 then boxes
  else
    keepUnmapped (markMap boxes range minOv maxR)
      (if op = OverlapOp.combine
        then combineReplace boxes (markMap boxes range minOv maxR)
        else boxes)
      boxes.length

theorem pairWrite_spec (boxes : List Box) (minOv maxR : ℚ) (i j p v : Nat)
    (hw : pairWrite boxes minOv maxR i j = some (p, v)) :
    ∃ bp bv, boxes.get? p = some bp ∧ boxes.get? v = some bv ∧
      area bp ≠ 0 ∧ area bv ≠ 0 ∧ 0 < boxOverlapArea bp bv ∧
      area bp ≤ area bv ∧
      minOv ≤ (boxOverlapArea bp bv : ℚ) / (area bp : ℚ) ∧
      (area bp : ℚ) / (area bv : ℚ) ≤ maxR := by
  unfold pairWrite at hw
  cases hb1 : boxes.get? i with
  | none => rw [hb1] at hw; cases boxes.get? j <;> simp at hw
  | some b1 =>
    cases hb2 : boxes.get? j with
    | none => rw [hb1, hb2] at hw; simp at hw
    | some b2 =>
      rw [hb1, hb2] at hw
      simp only at hw
      split_ifs at hw with h1 h2 h3 h4 h5 h6 <;>
        simp only [Option.some.injEq, Prod.mk.injEq, reduceCtorEq] at hw
      · obtain ⟨rfl, rfl⟩ := hw
        refine ⟨b2, b1, hb2, hb1, h3, h1, ?_, h4, ?_, ?_⟩
        · rwa [boxOverlapArea_comm] at h2
        · rw [boxOverlapArea_comm]; exact h5.1
        · exact h5.2
      · obtain ⟨rfl, rfl⟩ := hw
        exact ⟨b1, b2, hb1, hb2, h1, h3, h2, le_of_not_le h4, h6.1, h6.2⟩

theorem markWrites_spec (boxes : List Box) (range : Nat) (minOv maxR : ℚ)
    (p v : Nat) (h : (p, v) ∈ markWrites boxes range minOv maxR) :
    ∃ bp bv, boxes.get? p = some bp ∧ boxes.get? v = some bv ∧
      area bp ≠ 0 ∧ area bv ≠ 0 ∧ 0 < boxOverlapArea bp bv ∧
      area bp ≤ area bv ∧
      minOv ≤ (boxOverlapArea bp bv : ℚ) / (area bp : ℚ) ∧
      (area bp : ℚ) / (area bv : ℚ) ≤ maxR := by
  unfold markWrites at h
  obtain ⟨⟨i, j⟩, _, hw⟩ := List.mem_filterMap.mp h
  exact pairWrite_spec boxes minOv maxR i j p v hw

theorem foldl_set_length (ws : List (Nat × Nat)) :
    ∀ m : List Int,
      (ws.foldl (fun m pv => m.set pv.1 (pv.2 : Int)) m).length = m.length := by
  induction ws with
  | nil => intro m; rfl
  | cons w ws ih =>
    intro m
    rw [List.foldl_cons, ih]
    simp

theorem foldl_set_get_of_ne (ws : List (Nat × Nat)) (k : Nat) :
    ∀ m : List Int, (∀ pv ∈ ws, pv.1 ≠ k) →
      (ws.foldl (fun m pv => m.set pv.1 (pv.2 : Int)) m).get? k = m.get? k := by
  induction ws with
  | nil => intro m _; rfl
  | cons w ws ih =>
    intro m hws
    rw [List.foldl_cons, ih _ (fun pv hpv => hws pv (List.mem_cons_of_mem _ hpv))]
    exact List.get?_set_ne _ _ (hws w (List.mem_cons_self _ _))

theorem foldl_set_get_of_some (ws : List (Nat × Nat)) (k : Nat) (wv : Int) :
    ∀ m : List Int,
      (ws.foldl (fun m pv => m.set pv.1 (pv.2 : Int)) m).get? k = some wv →
      m.get? k = some wv ∨ ∃ pv ∈ ws, pv.1 = k ∧ (pv.2 : Int) = wv := by
  induction ws with
  | nil => intro m h; left; exact h
  | cons w ws ih =>
    intro m h
    rw [List.foldl_cons] at h
    rcases ih _ h with h1 | ⟨pv, hpv, he⟩
    · by_cases hk : w.1 = k
      · subst hk
        rcases Nat.lt_or_ge w.1 m.length with hlt | hge
        · rw [List.get?_set_eq_of_lt _ hlt] at h1
          right
          exact ⟨w, List.mem_cons_self _ _, rfl, Option.some.inj h1⟩
        · left
          rwa [List.set_eq_of_length_le hge] at h1
      · left
        rwa [List.get?_set_ne _ _ hk] at h1
    · right; exact ⟨pv, List.mem_cons_of_mem _ hpv, he⟩

theorem markMap_get_spec (boxes : List Box) (range : Nat) (minOv maxR : ℚ)
    (p : Nat) (wv : Int)
    (h : (markMap boxes range minOv maxR).get? p = some wv) :
    wv = -1 ∨ ∃ v : Nat, (p, v) ∈ markWrites boxes range minOv maxR ∧ wv = (v : Int) := by
  unfold markMap at h
  rcases foldl_set_get_of_some _ p wv _ h with h1 | ⟨pv, hpv, hk, he⟩
  · left
    rw [List.get?_eq_getElem?, List.getElem?_replicate] at h1
    split_ifs at h1 <;> simp_all
  · right
    refine ⟨pv.2, ?_, he.symm⟩
    have : pv = (p, pv.2) := by
      cases pv
      simp_all
    rwa [this] at hpv

theorem markMap_get_of_not_written (boxes : List Box) (range : Nat)
    (minOv maxR : ℚ) (k : Nat) (hlt : k < boxes.length)
    (hnw : ∀ pv ∈ markWrites boxes range minOv maxR, pv.1 ≠ k) :
    (markMap boxes range minOv maxR).get? k = some (-1) := by
  unfold markMap
  rw [foldl_set_get_of_ne _ _ _ hnw, List.get?_eq_getElem?,
    List.getElem?_replicate_of_lt hlt]

theorem combineStep_get_of_ne (boxes : List Box) (namap : List Int) (k : Nat)
    (bt : List Box) (i : Nat)
    (hno : ∀ v, namap.get? i = some v → 0 ≤ v → v.toNat ≠ k) :
    (combineStep boxes namap bt i).get? k = bt.get? k := by
  unfold combineStep
  split
  · rename_i v hv
    split_ifs with h0
    · split
      · exact List.get?_set_ne _ _ (hno v hv h0)
      · rfl
    · rfl
  · rfl

theorem combineFold_get_of_ne (boxes : List Box) (namap : List Int) (k : Nat)
    (hno : ∀ i v, namap.get? i = some v → 0 ≤ v → v.toNat ≠ k) (is : List Nat) :
    ∀ bt : List Box,
      (is.foldl (combineStep boxes namap) bt).get? k = bt.get? k := by
  induction is with
  | nil => intro bt; rfl
  | cons i is ih =>
    intro bt
    rw [List.foldl_cons, ih]
    exact combineStep_get_of_ne boxes namap k bt i (fun v hv h0 => hno i v hv h0)

theorem combineReplace_get_of_ne (boxes : List Box) (namap : List Int) (k : Nat)
    (hno : ∀ i v, namap.get? i = some v → 0 ≤ v → v.toNat ≠ k) :
    (combineReplace boxes namap).get? k = boxes.get? k := by
  unfold combineReplace
  exact combineFold_get_of_ne boxes namap k hno (List.range boxes.length) boxes

theorem keepUnmapped_mem (namap : List Int) (boxat : List Box) (n k : Nat)
    (b : Box) (hk : k < n) (hmap : namap.get? k = some (-1))
    (hbox : boxat.get? k = some b) :
    b ∈ keepUnmapped namap boxat n := by
  unfold keepUnmapped
  refine List.mem_filterMap.mpr ⟨k, List.mem_range.mpr hk, ?_⟩
  have hbox2 : boxat[k]? = some b := by
    rw [← List.get?_eq_getElem?]; exact hbox
  rw [hmap]
  simp [hbox2]

/-- C3 (amended): every index-map write of the marking phase records, at the
position of the smaller box of a qualifying pair, the index of the larger
box (positive overlap, both areas non-zero, thresholds met relative to the
smaller box) — but an entry is not written at most once: a later qualifying
pair involving the same smaller position overwrites the earlier record
(last write wins), see the counterexample. -/
theorem claim_C3_marking_writes (boxes : List Box) (range : Nat)
    (minOv maxR : ℚ) (p v : Nat)
    (h : (p, v) ∈ markWrites boxes range minOv maxR) :
    ∃ bp bv, boxes.get? p = some bp ∧ boxes.get? v = some bv ∧
      area bp ≠ 0 ∧ area bv ≠ 0 ∧ 0 < boxOverlapArea bp bv ∧
      area bp ≤ area bv ∧
      minOv ≤ (boxOverlapArea bp bv : ℚ) / (area bp : ℚ) ∧
      (area bp : ℚ) / (area bv : ℚ) ≤ maxR :=
  markWrites_spec boxes range minOv maxR p v h

/-- Witness for C3 (amended): on `[(0,0,10,10), (0,0,2,2)]` with `range = 1`,
`min_overlap = 0`, `max_ratio = 1`, the marking phase writes entry 1 with
value 0. -/
theorem claim_C3_witness :
    ((1, 0) ∈ markWrites [⟨0, 0, 10, 10⟩, ⟨0, 0, 2, 2⟩] 1 0 1) ∧
    (∃ bp bv, ([⟨0, 0, 10, 10⟩, ⟨0, 0, 2, 2⟩] : List Box).get? 1 = some bp ∧
      ([⟨0, 0, 10, 10⟩, ⟨0, 0, 2, 2⟩] : List Box).get? 0 = some bv ∧
      area bp ≠ 0 ∧ area bv ≠ 0 ∧ 0 < boxOverlapArea bp bv ∧
      area bp ≤ area bv ∧
      (0 : ℚ) ≤ (boxOverlapArea bp bv : ℚ) / (area bp : ℚ) ∧
      (area bp : ℚ) / (area bv : ℚ) ≤ (1 : ℚ)) := by
  have hov : boxOverlapArea ⟨0, 0, 10, 10⟩ ⟨0, 0, 2, 2⟩ = 4 := by decide
  have hwp : windowPairs 2 1 = [(0, 1)] := by decide
  have h1 : markWrites [⟨0, 0, 10, 10⟩, ⟨0, 0, 2, 2⟩] 1 0 1 = [(1, 0)] := by
    norm_num [markWrites, hwp, List.filterMap, pairWrite, hov, area]
  have hmem : (1, 0) ∈ markWrites [⟨0, 0, 10, 10⟩, ⟨0, 0, 2, 2⟩] 1 0 1 := by
    rw [h1]
    exact List.mem_singleton.mpr rfl
  exact ⟨hmem,
    claim_C3_marking_writes [⟨0, 0, 10, 10⟩, ⟨0, 0, 2, 2⟩] 1 0 1 1 0 hmem⟩

/-- C3 counterexample: on `[(0,0,10,10), (0,0,10,10), (0,0,2,2)]` with
`range = 2`, `min_overlap = 0`, `max_ratio = 1`, index-map entry 2 is written
twice during the marking phase — once by the pair `(0,2)` and once by the
pair `(1,2)` — and the second write overwrites the first (the final map
stores 1, not 0).  This refutes "each index-map entry is written at most
once" and "no recorded mapping is ever overwritten by a later pair". -/
theorem claim_C3_counterexample :
    ((markWrites [⟨0, 0, 10, 10⟩, ⟨0, 0, 10, 10⟩, ⟨0, 0, 2, 2⟩] 2 0 1).map
        Prod.fst).count 2 = 2 ∧
    (markMap [⟨0, 0, 10, 10⟩, ⟨0, 0, 10, 10⟩, ⟨0, 0, 2, 2⟩] 2 0 1).get? 2 =
      some 1 := by
  have hov1 : boxOverlapArea ⟨0, 0, 10, 10⟩ ⟨0, 0, 10, 10⟩ = 100 := by decide
  have hov2 : boxOverlapArea ⟨0, 0, 10, 10⟩ ⟨0, 0, 2, 2⟩ = 4 := by decide
  have hwp : windowPairs 3 2 = [(0, 1), (0, 2), (1, 2)] := by decide
  have h1 : markWrites [⟨0, 0, 10, 10⟩, ⟨0, 0, 10, 10⟩, ⟨0, 0, 2, 2⟩] 2 0 1 =
      [(1, 0), (2, 0), (2, 1)] := by
    norm_num [markWrites, hwp, List.filterMap, pairWrite, hov1, hov2, area]
  constructor
  · rw [h1]
    decide
  · unfold markMap
    rw [h1]
    decide

/-- C7: a zero-area box is inert in `boxaHandleOverlaps` for every mode and
parameter setting — its index-map entry stays at the sentinel `-1`, its
index is never stored as the larger partner of any entry (so it never causes
a removal or a bounding-region replacement), and the box itself appears
unchanged in the output. -/
theorem claim_C7_zero_area_box_inert (boxes : List Box) (op : OverlapOp)
    (range : Nat) (minOv maxR : ℚ) (k : Nat) (b : Box)
    (hk : boxes.get? k = some b) (hb : area b = 0) :
    (markMap boxes range minOv maxR).get? k = some (-1) ∧
    (∀ p wv, (markMap boxes range minOv maxR).get? p = some wv →
      wv ≠ (k : Int)) ∧
    b ∈ boxaHandleOverlaps boxes op range minOv maxR := by
  obtain ⟨hklt, -⟩ := List.get?_eq_some.mp hk
  have hnw : ∀ pv ∈ markWrites boxes range minOv maxR, pv.1 ≠ k := by
    rintro ⟨p, v⟩ hpv hpk
    subst hpk
    obtain ⟨bp, bv, hgp, -, hbp, -⟩ := markWrites_spec boxes range minOv maxR p v hpv
    rw [hk] at hgp
    exact hbp ((Option.some.inj hgp) ▸ hb)
  have hnv : ∀ p wv, (markMap boxes range minOv maxR).get? p = some wv →
      wv ≠ (k : Int) := by
    intro p wv hw hcontra
    rcases markMap_get_spec boxes range minOv maxR p wv hw with h1 | ⟨v, hmem, h2⟩
    · omega
    · have hv : v = k := by omega
      subst hv
      obtain ⟨bp, bv, -, hgv, -, hbv, -⟩ :=
        markWrites_spec boxes range minOv maxR p v hmem
      rw [hk] at hgv
      exact hbv ((Option.some.inj hgv) ▸ hb)
  have hmap : (markMap boxes range minOv maxR).get? k = some (-1) :=
    markMap_get_of_not_written boxes range minOv maxR k hklt hnw
  refine ⟨hmap, hnv, ?_⟩
  unfold boxaHandleOverlaps
  have h0 : ¬ boxes.length = 0 := by omega
  rw [if_neg h0]
  by_cases hr : range = 0
  · rw [if_pos hr]
    exact List.get?_mem hk
  · rw [if_neg hr]
    have hno : ∀ i v, (markMap boxes range minOv maxR).get? i = some v →
        0 ≤ v → v.toNat ≠ k := by
      intro i v hv hv0 hvk
      have : v = (k : Int) := by omega
      exact hnv i v hv this
    have hbox : (if op = OverlapOp.combine
        then combineReplace boxes (markMap boxes range minOv maxR)
        else boxes).get? k = some b := by
      split_ifs
      · rw [combineReplace_get_of_ne boxes _ k hno]
        exact hk
      · exact hk
    exact keepUnmapped_mem _ _ _ k b hklt hmap hbox

/-- Witness for C7 at the collection `[(0,0,2,2), (0,0,0,0)]` with the
zero-area box at index 1, COMBINE mode, `range = 1`, `min_overlap = 0`,
`max_ratio = 1`. -/
theorem claim_C7_witness :
    ([⟨0, 0, 2, 2⟩, ⟨0, 0, 0, 0⟩] : List Box).get? 1 = some ⟨0, 0, 0, 0⟩ ∧
    area (⟨0, 0, 0, 0⟩ : Box) = 0 ∧
    ((markMap [⟨0, 0, 2, 2⟩, ⟨0, 0, 0, 0⟩] 1 0 1).get? 1 = some (-1) ∧
     (∀ p wv, (markMap [⟨0, 0, 2, 2⟩, ⟨0, 0, 0, 0⟩] 1 0 1).get? p = some wv →
       wv ≠ ((1 : Nat) : Int)) ∧
     (⟨0, 0, 0, 0⟩ : Box) ∈
       boxaHandleOverlaps [⟨0, 0, 2, 2⟩, ⟨0, 0, 0, 0⟩] OverlapOp.combine 1 0 1) :=
  ⟨rfl, rfl,
   claim_C7_zero_area_box_inert [⟨0, 0, 2, 2⟩, ⟨0, 0, 0, 0⟩] OverlapOp.combine
     1 0 1 1 ⟨0, 0, 0, 0⟩ rfl rfl⟩

end Boxfunc
